import Mathlib

/-!
# Eligibility-validation core of the voter-verification application

A shallow embedding of `app/models.py` (classes `RegisteredVoter` and
`Voter`), `app/forms.py` (`VoterRegistrationForm.clean_fullname`) and the
registration view of `app/views.py`, together with proofs of the
specification claims about the eligibility matcher.

Strings are modelled as lists of characters.  The Python `str.strip()` method is
modelled as removal of leading and trailing whitespace characters
(`List.dropWhile` / `List.rdropWhile` over the whitespace predicate), and
`str.lower()` as character-wise `Char.toLower` (basic-latin lowering, which
agrees with Python on the ASCII range).  The Python newline split is
modelled by `splitOnNl`.  Django persistence is modelled by explicit state
passing: the set of stored `RegisteredVoter` rows is a parameter, and the
`Voter` table is a list threaded through `save`.
-/

namespace VoterVerification

/-- Strings as character lists. -/
abbrev Str := List Char

/-- Coerce a Lean string literal to the character-list model. -/
def pyStr (s : String) : Str := s.data

/-- Whitespace characters of the Python default strip set in the ASCII range:
space, tab, newline, carriage return, vertical tab, form feed. -/
def pyIsSpace (c : Char) : Bool :=
  c.toNat == 32 || c.toNat == 9 || c.toNat == 10 ||
  c.toNat == 13 || c.toNat == 11 || c.toNat == 12

/-- Model of the `lower` string method: lower-case every character. -/
def pyLower (s : Str) : Str := s.map Char.toLower

/-- Model of the `strip` string method: remove leading and trailing whitespace. -/
def pyStrip (s : Str) : Str := (s.dropWhile pyIsSpace).rdropWhile pyIsSpace

/-- Model of the `split` string method at the newline separator; the empty string splits
to one empty field, and every newline opens a new field. -/
def splitOnNl : Str → List Str
  | [] => [[]]
  | c :: rest =>
    if c = '\n' then [] :: splitOnNl rest
    else
      match splitOnNl rest with
      | [] => [[c]]
      | line :: lines => (c :: line) :: lines

/-- The `RegisteredVoter` model: a primary key and the raw `names` text
blob holding one eligible voter name per line. -/
structure RegisteredVoter where
  pk : Nat
  names : Str
deriving DecidableEq

/-- Model of `RegisteredVoter.get_eligible_names`:
`[name.strip().lower() for name in self.names.split('\n') if name.strip()]`
guarded by `if self.names:` (empty text yields the empty list). -/
def RegisteredVoter.get_eligible_names (self : RegisteredVoter) : List Str :=
  if self.names ≠ [] then
    ((splitOnNl self.names).filter fun name => pyStrip name ≠ []).map
      fun name => pyLower (pyStrip name)
  else []

/-- The one error kind raised by the eligibility-validation core. -/
inductive ValidationError where
  | notEligible : ValidationError
deriving DecidableEq

/-- Fields of the `Voter` model; `registered_list` is the nullable foreign
key to the eligible list the voter was validated against. -/
structure Voter where
  fullname : Str
  email : Str
  telephone : Str
  student_id : Str
  registered_list : Option RegisteredVoter
deriving DecidableEq

/-- Model of `Voter.is_eligible_voter`: scan the stored `RegisteredVoter` rows in
retrieval order and return the first list whose eligible names contain
`fullname.lower().strip()`, or `None` when no list contains it. -/
def Voter.is_eligible_voter (fullname : Str) :
    List RegisteredVoter → Option RegisteredVoter
  | [] => none
  | voter_list :: rest =>
    if pyStrip (pyLower fullname) ∈ voter_list.get_eligible_names then
      some voter_list
    else
      Voter.is_eligible_voter fullname rest

/-- Model of `Voter.clean`: look the fullname up with `is_eligible_voter`; raise
`ValidationError` when no list matches, otherwise assign the matching list
to `registered_list`. -/
def Voter.clean (self : Voter) (registered_lists : List RegisteredVoter) :
    Except ValidationError Voter :=
  match Voter.is_eligible_voter self.fullname registered_lists with
  | none => Except.error ValidationError.notEligible
  | some eligible_list =>
      Except.ok { self with registered_list := some eligible_list }

/-- Model of `Voter.save`: run `clean`, then persist (append the cleaned record to
the `Voter` table); a `ValidationError` from `clean` aborts the save. -/
def Voter.save (self : Voter) (registered_lists : List RegisteredVoter)
    (db : List Voter) : Except ValidationError (Voter × List Voter) :=
  match Voter.clean self registered_lists with
  | Except.error e => Except.error e
  | Except.ok cleaned => Except.ok (cleaned, db ++ [cleaned])

/-- The POST branch of the registration view: attempt the save; on a
`ValidationError` keep the table unchanged and surface the error message,
on success commit the updated table. -/
def voter_forms_post (self : Voter) (registered_lists : List RegisteredVoter)
    (db : List Voter) : List Voter × Option ValidationError :=
  match Voter.save self registered_lists db with
  | Except.error e => (db, some e)
  | Except.ok (_, db2) => (db2, none)

/-- Model of `VoterRegistrationForm.clean_fullname`: for a non-empty submitted
fullname, raise a validation error when `Voter.is_eligible_voter` finds no
match; otherwise return the fullname unchanged. -/
def VoterRegistrationForm.clean_fullname (fullname : Str)
    (registered_lists : List RegisteredVoter) : Except ValidationError Str :=
  if fullname ≠ [] then
    match Voter.is_eligible_voter fullname registered_lists with
    | none => Except.error ValidationError.notEligible
    | some _ => Except.ok fullname
  else
    Except.ok fullname

/-- Spec-side `derive_names`, following §4.1 word for word:
split the list text on line breaks, trim and lower-case each line, discard
lines that become empty, and collapse duplicates into a set. -/
def derive_names_spec (list_text : Str) : Finset Str :=
  (((splitOnNl list_text).map fun line => pyLower (pyStrip line)).filter
    fun n => n ≠ []).toFinset

/-- Spec-side `is_member`, realised by the membership
check: `fullname.lower().strip() in eligible_names` against the names
derived from a single list text. -/
def is_member (candidate_fullname : Str) (list_text : Str) : Bool :=
  pyStrip (pyLower candidate_fullname) ∈
    (RegisteredVoter.mk 0 list_text).get_eligible_names

/-- Example fixture: list A containing "Alice". -/
def listA : RegisteredVoter := ⟨1, pyStr "Alice"⟩

/-- Example fixture: list B containing "Bob". -/
def listB : RegisteredVoter := ⟨2, pyStr "Bob"⟩

/-- Example fixture: the three-name list text of the specification. -/
def johnText : Str := pyStr "John Smith\nJane Doe\n\n  Michael Johnson  \n"

/-- Example fixture: a stored list holding `johnText`. -/
def johnList : RegisteredVoter := ⟨7, johnText⟩

/-- Example fixture: a voter record submitting the name "bob". -/
def vBob : Voter :=
  ⟨pyStr "bob", pyStr "bob@example.com", pyStr "+155501", pyStr "S01", none⟩

/-- Example fixture: a voter record submitting the name "carol". -/
def vCarol : Voter :=
  ⟨pyStr "carol", pyStr "carol@example.com", pyStr "+155502", pyStr "S02", none⟩

lemma toNat_ofNat_valid (n : Nat) (h : n.isValidChar) :
    (Char.ofNat n).toNat = n := by
  unfold Char.ofNat
  rw [dif_pos h]
  rfl

lemma toLower_toNat_of_upper {c : Char} (h1 : 65 ≤ c.toNat) (h2 : c.toNat ≤ 90) :
    (Char.toLower c).toNat = c.toNat + 32 := by
  unfold Char.toLower
  rw [if_pos ⟨h1, h2⟩]
  exact toNat_ofNat_valid _ (Or.inl (by omega))

lemma toLower_eq_self_of_not_upper {c : Char}
    (h : ¬(65 ≤ c.toNat ∧ c.toNat ≤ 90)) : Char.toLower c = c := by
  unfold Char.toLower
  rw [if_neg h]

lemma pyIsSpace_toLower (c : Char) : pyIsSpace (Char.toLower c) = pyIsSpace c := by
  by_cases h : 65 ≤ c.toNat ∧ c.toNat ≤ 90
  · obtain ⟨ha, hb⟩ := h
    have h1 := toLower_toNat_of_upper ha hb
    have h2 : pyIsSpace (Char.toLower c) = false := by
      simp only [pyIsSpace, h1, Bool.or_eq_false_iff, beq_eq_false_iff_ne, ne_eq]
      omega
    have h3 : pyIsSpace c = false := by
      simp only [pyIsSpace, Bool.or_eq_false_iff, beq_eq_false_iff_ne, ne_eq]
      omega
    rw [h2, h3]
  · rw [toLower_eq_self_of_not_upper h]

lemma toLower_toLower (c : Char) :
    Char.toLower (Char.toLower c) = Char.toLower c := by
  by_cases h : 65 ≤ c.toNat ∧ c.toNat ≤ 90
  · obtain ⟨ha, hb⟩ := h
    have h1 := toLower_toNat_of_upper ha hb
    apply toLower_eq_self_of_not_upper
    omega
  · rw [toLower_eq_self_of_not_upper h]
    exact toLower_eq_self_of_not_upper h

lemma pyLower_pyLower (s : Str) : pyLower (pyLower s) = pyLower s := by
  simp only [pyLower, List.map_map, Function.comp_def, toLower_toLower]

lemma pyLower_eq_nil_iff {s : Str} : pyLower s = [] ↔ s = [] := by
  simp [pyLower]

lemma dropWhile_pyLower (s : Str) :
    (pyLower s).dropWhile pyIsSpace = pyLower (s.dropWhile pyIsSpace) := by
  unfold pyLower
  rw [List.dropWhile_map]
  have hp : (pyIsSpace ∘ Char.toLower) = pyIsSpace := by
    funext a
    exact pyIsSpace_toLower a
  rw [hp]

lemma rdropWhile_pyLower (s : Str) :
    (pyLower s).rdropWhile pyIsSpace = pyLower (s.rdropWhile pyIsSpace) := by
  unfold List.rdropWhile
  rw [show (pyLower s).reverse = pyLower s.reverse by simp [pyLower]]
  rw [dropWhile_pyLower]
  simp [pyLower]

lemma pyStrip_pyLower (s : Str) : pyStrip (pyLower s) = pyLower (pyStrip s) := by
  unfold pyStrip
  rw [dropWhile_pyLower, rdropWhile_pyLower]

lemma dropWhile_pyStrip_self (s : Str) :
    (pyStrip s).dropWhile pyIsSpace = pyStrip s := by
  cases hps : pyStrip s with
  | nil => rfl
  | cons a t =>
    obtain ⟨r, hr⟩ := List.rdropWhile_prefix pyIsSpace (s.dropWhile pyIsSpace)
    have hr2 : (a :: t) ++ r = s.dropWhile pyIsSpace := by
      rw [← hps]
      exact hr
    have hw : s.dropWhile pyIsSpace ≠ [] := by
      rw [← hr2]
      simp
    have hh2 : (s.dropWhile pyIsSpace).head? = some a := by
      rw [← hr2]
      simp
    have hhead : (s.dropWhile pyIsSpace).head hw = a := by
      have h3 := List.head?_eq_head hw
      rw [hh2] at h3
      exact (Option.some.inj h3).symm
    have hnot : ¬ pyIsSpace a = true := by
      rw [← hhead]
      simp [List.head_dropWhile_not pyIsSpace s hw]
    rw [List.dropWhile_cons_of_neg hnot]

lemma pyStrip_pyStrip (s : Str) : pyStrip (pyStrip s) = pyStrip s := by
  show ((pyStrip s).dropWhile pyIsSpace).rdropWhile pyIsSpace = pyStrip s
  rw [dropWhile_pyStrip_self]
  exact List.rdropWhile_idempotent pyIsSpace (s.dropWhile pyIsSpace)

lemma mem_get_eligible_names_iff {rv : RegisteredVoter} {x : Str} :
    x ∈ rv.get_eligible_names ↔
      ∃ line ∈ splitOnNl rv.names, pyStrip line ≠ [] ∧ x = pyLower (pyStrip line) := by
  unfold RegisteredVoter.get_eligible_names
  by_cases h : rv.names = []
  · rw [if_neg (by simp [h])]
    rw [h]
    constructor
    · intro hx
      exact absurd hx (List.not_mem_nil x)
    · rintro ⟨line, hline, hne, _⟩
      have hl0 : line = [] := by simpa [splitOnNl] using hline
      exact absurd (by decide : pyStrip ([] : Str) = []) (hl0 ▸ hne)
  · rw [if_pos h]
    simp only [List.mem_map, List.mem_filter, decide_eq_true_eq]
    constructor
    · rintro ⟨line, ⟨h1, h2⟩, h3⟩
      exact ⟨line, h1, h2, h3.symm⟩
    · rintro ⟨line, h1, h2, h3⟩
      exact ⟨line, ⟨h1, h2⟩, h3.symm⟩

lemma get_eligible_names_ne_nil {rv : RegisteredVoter} {x : Str}
    (hx : x ∈ rv.get_eligible_names) : x ≠ [] := by
  obtain ⟨line, _, hne, hx2⟩ := mem_get_eligible_names_iff.mp hx
  rw [hx2]
  intro hcon
  exact hne (pyLower_eq_nil_iff.mp hcon)

lemma get_eligible_names_normalized {rv : RegisteredVoter} {x : Str}
    (hx : x ∈ rv.get_eligible_names) : pyLower (pyStrip x) = x := by
  obtain ⟨line, _, _, hx2⟩ := mem_get_eligible_names_iff.mp hx
  rw [hx2, pyStrip_pyLower, pyStrip_pyStrip, pyLower_pyLower]

lemma is_eligible_voter_eq_none_iff (fullname : Str)
    (registered_lists : List RegisteredVoter) :
    Voter.is_eligible_voter fullname registered_lists = none ↔
      ∀ l ∈ registered_lists,
        pyStrip (pyLower fullname) ∉ l.get_eligible_names := by
  induction registered_lists with
  | nil => simp [Voter.is_eligible_voter]
  | cons a rest ih =>
    by_cases h : pyStrip (pyLower fullname) ∈ a.get_eligible_names
    · simp [Voter.is_eligible_voter, h]
    · simp [Voter.is_eligible_voter, h, ih]

lemma is_eligible_voter_eq_some_iff (fullname : Str)
    (registered_lists : List RegisteredVoter) (r : RegisteredVoter) :
    Voter.is_eligible_voter fullname registered_lists = some r ↔
      ∃ i, ∃ h : i < registered_lists.length,
        registered_lists.get ⟨i, h⟩ = r ∧
        pyStrip (pyLower fullname) ∈ r.get_eligible_names ∧
        ∀ l ∈ registered_lists.take i,
          pyStrip (pyLower fullname) ∉ l.get_eligible_names := by
  induction registered_lists with
  | nil => simp [Voter.is_eligible_voter]
  | cons a rest ih =>
    by_cases h : pyStrip (pyLower fullname) ∈ a.get_eligible_names
    · rw [show Voter.is_eligible_voter fullname (a :: rest) =
        some a by simp [Voter.is_eligible_voter, h]]
      constructor
      · intro heq
        obtain rfl : a = r := Option.some.inj heq
        exact ⟨0, by simp, rfl, h, by simp⟩
      · rintro ⟨i, hi, hget, hmem, hnot⟩
        cases i with
        | zero => rw [← hget]; rfl
        | succ j =>
          exfalso
          exact hnot a (by simp [List.take_succ_cons]) h
    · rw [show Voter.is_eligible_voter fullname (a :: rest) =
        Voter.is_eligible_voter fullname rest by
          simp [Voter.is_eligible_voter, h]]
      rw [ih]
      constructor
      · rintro ⟨i, hi, hget, hmem, hnot⟩
        refine ⟨i + 1, Nat.succ_lt_succ hi, by simpa using hget, hmem, ?_⟩
        intro l hl
        rw [List.take_succ_cons] at hl
        rcases List.mem_cons.mp hl with rfl | hl2
        · exact h
        · exact hnot l hl2
      · rintro ⟨i, hi, hget, hmem, hnot⟩
        cases i with
        | zero =>
          exfalso
          have : a = r := hget
          exact h (this ▸ hmem)
        | succ j =>
          refine ⟨j, Nat.lt_of_succ_lt_succ hi, by simpa using hget, hmem, ?_⟩
          intro l hl
          exact hnot l (by simp [List.take_succ_cons, hl])

lemma is_eligible_voter_of_strip_nil {s : Str} (hs : pyStrip s = [])
    (registered_lists : List RegisteredVoter) :
    Voter.is_eligible_voter s registered_lists = none := by
  rw [is_eligible_voter_eq_none_iff]
  intro l _ hmem
  have h1 : pyStrip (pyLower s) = [] := by
    rw [pyStrip_pyLower, hs]
    rfl
  rw [h1] at hmem
  exact get_eligible_names_ne_nil hmem rfl

lemma filter_map_eligible (l : List Str) :
    ((l.filter fun name => pyStrip name ≠ []).map
        fun name => pyLower (pyStrip name)) =
      ((l.map fun line => pyLower (pyStrip line)).filter fun n => n ≠ []) := by
  induction l with
  | nil => rfl
  | cons a l ih =>
    rw [List.map_cons]
    by_cases h : pyStrip a = []
    · rw [List.filter_cons_of_neg (by simp [h]),
        List.filter_cons_of_neg (by simp [pyLower_eq_nil_iff, h]), ih]
    · rw [List.filter_cons_of_pos (by simp [h]),
        List.filter_cons_of_pos (by simp [pyLower_eq_nil_iff, h]),
        List.map_cons, ih]

lemma get_eligible_names_toFinset (rv : RegisteredVoter) :
    rv.get_eligible_names.toFinset = derive_names_spec rv.names := by
  unfold RegisteredVoter.get_eligible_names derive_names_spec
  by_cases h : rv.names = []
  · rw [if_neg (by simp [h]), h]
    decide
  · rw [if_pos h, filter_map_eligible]

/-- C1: `find_matching_list`, implemented as `Voter.is_eligible_voter`,
normalizes the candidate, iterates the lists in the supplied retrieval
order, and returns the first list whose derived name set contains the
normalized candidate (`some r` exactly when `r` sits at an index `i`,
contains the candidate, and no earlier list does), and returns `none`
exactly when no derived set of any list contains it.  In particular, with list
A containing "Alice" and list B containing "Bob", the query "bob" returns
B and the query "carol" returns no match. -/
theorem C1_find_matching_list_first_match (fullname : Str)
    (registered_lists : List RegisteredVoter) :
    ((∀ r, Voter.is_eligible_voter fullname registered_lists = some r ↔
        ∃ i, ∃ h : i < registered_lists.length,
          registered_lists.get ⟨i, h⟩ = r ∧
          pyStrip (pyLower fullname) ∈ r.get_eligible_names ∧
          ∀ l ∈ registered_lists.take i,
            pyStrip (pyLower fullname) ∉ l.get_eligible_names) ∧
      (Voter.is_eligible_voter fullname registered_lists = none ↔
        ∀ l ∈ registered_lists,
          pyStrip (pyLower fullname) ∉ l.get_eligible_names)) ∧
    Voter.is_eligible_voter (pyStr "bob") [listA, listB] = some listB ∧
    Voter.is_eligible_voter (pyStr "carol") [listA, listB] = none :=
  ⟨⟨fun r => is_eligible_voter_eq_some_iff fullname registered_lists r,
    is_eligible_voter_eq_none_iff fullname registered_lists⟩,
    by decide, by decide⟩

/-- Witness for C1 at the example lists of the spec. -/
theorem C1_witness :
    Voter.is_eligible_voter (pyStr "bob") [listA, listB] = some listB :=
  (C1_find_matching_list_first_match (pyStr "bob") [listA, listB]).2.1

/-- C2: saving a `Voter` raises the `NotEligible` validation error exactly
when no derived name set of any list contains the normalized candidate; in that
case the registration view leaves the stored table unchanged, and a save
reaches persistence only when a matching list exists. -/
theorem C2_not_eligible_blocks_save (v : Voter)
    (registered_lists : List RegisteredVoter) (db : List Voter) :
    (Voter.save v registered_lists db =
        Except.error ValidationError.notEligible ↔
      ∀ l ∈ registered_lists,
        pyStrip (pyLower v.fullname) ∉ l.get_eligible_names) ∧
    ((∀ l ∈ registered_lists,
        pyStrip (pyLower v.fullname) ∉ l.get_eligible_names) →
      voter_forms_post v registered_lists db =
        (db, some ValidationError.notEligible)) ∧
    (∀ w db2, Voter.save v registered_lists db = Except.ok (w, db2) →
      ∃ l, Voter.is_eligible_voter v.fullname registered_lists = some l) := by
  rcases hm : Voter.is_eligible_voter v.fullname registered_lists with _ | l
  · refine ⟨?_, ?_, ?_⟩
    · rw [← is_eligible_voter_eq_none_iff]
      simp [Voter.save, Voter.clean, hm]
    · intro _
      simp [voter_forms_post, Voter.save, Voter.clean, hm]
    · intro w db2 hok
      exfalso
      simp [Voter.save, Voter.clean, hm] at hok
  · refine ⟨?_, ?_, ?_⟩
    · rw [← is_eligible_voter_eq_none_iff]
      simp [Voter.save, Voter.clean, hm]
    · intro hforall
      exfalso
      rw [← is_eligible_voter_eq_none_iff, hm] at hforall
      exact Option.some_ne_none l hforall
    · intro w db2 _
      exact ⟨l, rfl⟩

/-- Witness for C2: registering "carol" against lists A and B leaves the
table unchanged and surfaces the `NotEligible` error. -/
theorem C2_witness :
    voter_forms_post vCarol [listA, listB] [] =
      ([], some ValidationError.notEligible) :=
  (C2_not_eligible_blocks_save vCarol [listA, listB] []).2.1 (by decide)

/-- C3: when the normalized fullname matches some list, a successful save
returns the record carrying a non-null reference to exactly the first
matching list; the reference is assigned during save and does not depend
on the caller-supplied `registered_list` value. -/
theorem C3_registered_list_assigned (v : Voter)
    (registered_lists : List RegisteredVoter) (l : RegisteredVoter)
    (db : List Voter)
    (h : Voter.is_eligible_voter v.fullname registered_lists = some l) :
    Voter.save v registered_lists db =
      Except.ok ({ v with registered_list := some l },
        db ++ [{ v with registered_list := some l }]) ∧
    ({ v with registered_list := some l }).registered_list = some l ∧
    ∀ o : Option RegisteredVoter,
      Voter.save { v with registered_list := o } registered_lists db =
        Voter.save v registered_lists db := by
  refine ⟨?_, rfl, ?_⟩
  · simp [Voter.save, Voter.clean, h]
  · intro o
    simp [Voter.save, Voter.clean, h]

/-- Witness for C3: saving the record for "bob" persists it with the
reference assigned to list B. -/
theorem C3_witness :
    Voter.save vBob [listA, listB] [] =
      Except.ok ({ vBob with registered_list := some listB },
        [] ++ [{ vBob with registered_list := some listB }]) :=
  (C3_registered_list_assigned vBob [listA, listB] listB [] (by decide)).1

/-- C4: `get_eligible_names` realises the `derive_names` of the spec: splitting
on line breaks, trimming and lower-casing each line, discarding lines that
become empty, with set semantics (duplicates collapse, order irrelevant). -/
theorem C4_derive_names_set (rv : RegisteredVoter) :
    rv.get_eligible_names.toFinset = derive_names_spec rv.names :=
  get_eligible_names_toFinset rv

/-- Witness for C4 at the three-name example list. -/
theorem C4_witness :
    johnList.get_eligible_names.toFinset = derive_names_spec johnText :=
  C4_derive_names_set johnList

/-- C5: if a name, after trimming and lower-casing, appears as a non-empty
line of the raw list text (whatever whitespace or case the stored line or
the query carry), the membership check succeeds; and `is_member` is
equivalent to membership of the normalized candidate in the derived name
set. -/
theorem C5_is_member_characterisation (candidate_fullname list_text : Str) :
    ((∃ line ∈ splitOnNl list_text, pyStrip line ≠ [] ∧
        pyLower (pyStrip line) = pyLower (pyStrip candidate_fullname)) →
      is_member candidate_fullname list_text = true) ∧
    (is_member candidate_fullname list_text = true ↔
      pyLower (pyStrip candidate_fullname) ∈ derive_names_spec list_text) := by
  have hmem : is_member candidate_fullname list_text = true ↔
      pyStrip (pyLower candidate_fullname) ∈
        (RegisteredVoter.mk 0 list_text).get_eligible_names := by
    simp [is_member]
  constructor
  · rintro ⟨line, hline, hne, hlow⟩
    rw [hmem, pyStrip_pyLower]
    exact mem_get_eligible_names_iff.mpr ⟨line, hline, hne, hlow.symm⟩
  · rw [hmem, pyStrip_pyLower]
    rw [show derive_names_spec list_text =
      derive_names_spec (RegisteredVoter.mk 0 list_text).names from rfl]
    rw [← get_eligible_names_toFinset (RegisteredVoter.mk 0 list_text)]
    exact (List.mem_toFinset).symm

/-- Witness for C5: the stored line "John Smith" makes the query
" john SMITH " a member of the example list. -/
theorem C5_witness : is_member (pyStr " john SMITH ") johnText = true :=
  (C5_is_member_characterisation (pyStr " john SMITH ") johnText).1
    ⟨pyStr "John Smith", by decide, by decide, by decide⟩

/-- C6: the candidate-side normalization lower-then-strip used in
`is_eligible_voter` equals the entry-side normalization strip-then-lower
used in `get_eligible_names`, on every string. -/
theorem C6_normalize_orders_agree (s : Str) :
    pyStrip (pyLower s) = pyLower (pyStrip s) :=
  pyStrip_pyLower s

/-- Witness for C6 on a mixed-case padded string. -/
theorem C6_witness :
    pyStrip (pyLower (pyStr "  John SMITH  ")) =
      pyLower (pyStrip (pyStr "  John SMITH  ")) :=
  C6_normalize_orders_agree (pyStr "  John SMITH  ")

/-- C7: the list text "John Smith\nJane Doe\n\n  Michael Johnson  \n"
derives exactly to the set of the three normalized names, the candidate
" john SMITH " matches it and the candidate "Jon Smith" does not. -/
theorem C7_concrete_example :
    derive_names_spec johnText =
      {pyStr "john smith", pyStr "jane doe", pyStr "michael johnson"} ∧
    johnList.get_eligible_names.toFinset =
      {pyStr "john smith", pyStr "jane doe", pyStr "michael johnson"} ∧
    is_member (pyStr " john SMITH ") johnText = true ∧
    is_member (pyStr "Jon Smith") johnText = false :=
  ⟨by decide, by decide, by decide, by decide⟩

/-- C8: deriving the name set is deterministic; two derivations from
identical text give the same list of names and hence the same set. -/
theorem C8_derive_deterministic (rv rv2 : RegisteredVoter)
    (h : rv.names = rv2.names) :
    rv.get_eligible_names = rv2.get_eligible_names ∧
    rv.get_eligible_names.toFinset = rv2.get_eligible_names.toFinset := by
  have h1 : rv.get_eligible_names = rv2.get_eligible_names := by
    unfold RegisteredVoter.get_eligible_names
    rw [h]
  exact ⟨h1, by rw [h1]⟩

/-- Witness for C8: two rows with the same text derive the same names. -/
theorem C8_witness :
    johnList.get_eligible_names =
      (RegisteredVoter.mk 9 johnText).get_eligible_names :=
  (C8_derive_deterministic johnList (RegisteredVoter.mk 9 johnText) rfl).1

/-- C9: the empty candidate normalizes to the empty string and never
matches (so in particular, a match for the empty candidate would require
some list to contain a line that is empty after trimming). -/
theorem C9_empty_candidate (registered_lists : List RegisteredVoter) :
    pyStrip (pyLower []) = [] ∧
    Voter.is_eligible_voter [] registered_lists = none ∧
    ∀ r, Voter.is_eligible_voter [] registered_lists = some r →
      ∃ rv ∈ registered_lists, ∃ line ∈ splitOnNl rv.names,
        pyStrip line = [] := by
  refine ⟨by decide, ?_, ?_⟩
  · exact is_eligible_voter_of_strip_nil
      (show pyStrip ([] : Str) = [] by decide) registered_lists
  · intro r hr
    rw [is_eligible_voter_of_strip_nil
      (show pyStrip ([] : Str) = [] by decide) registered_lists] at hr
    exact Option.noConfusion hr

/-- Witness for C9: the empty candidate finds no match in lists A and B. -/
theorem C9_witness :
    Voter.is_eligible_voter [] [listA, listB] = none :=
  (C9_empty_candidate [listA, listB]).2.1

/-- C10: every element of a derived name set is non-empty and is a fixed
point of normalization, and an empty or whitespace-only candidate is never
matched, whatever the lists contain. -/
theorem C10_derived_names_invariant (rv : RegisteredVoter) (x : Str)
    (s : Str) (registered_lists : List RegisteredVoter) :
    (x ∈ rv.get_eligible_names → x ≠ [] ∧ pyLower (pyStrip x) = x) ∧
    (pyStrip s = [] →
      Voter.is_eligible_voter s registered_lists = none) := by
  constructor
  · intro hx
    exact ⟨get_eligible_names_ne_nil hx, get_eligible_names_normalized hx⟩
  · intro hs
    exact is_eligible_voter_of_strip_nil hs registered_lists

/-- Witness for C10: "john smith" is a normalized non-empty derived name,
and an all-blank candidate matches nothing. -/
theorem C10_witness :
    (pyStr "john smith" ≠ [] ∧
      pyLower (pyStrip (pyStr "john smith")) = pyStr "john smith") ∧
    Voter.is_eligible_voter (pyStr "   ") [listA, listB] = none :=
  ⟨(C10_derived_names_invariant johnList (pyStr "john smith") (pyStr "   ")
      [listA, listB]).1 (by decide),
   (C10_derived_names_invariant johnList (pyStr "john smith") (pyStr "   ")
      [listA, listB]).2 (by decide)⟩

end VoterVerification
